import Mathlib

/-!
Verification of the pythva Python-to-Java-style transliterator.

This file shallowly embeds the two renderer variants of the repository:

* `src/core.py`   — `JavaStyleConverter` (the "basic renderer"), modelled by
  `CoreExpr` / `CoreStmt` / `visitStmt` / `convert_basic` below;
* `src/mapper.py` — `SyntaxMapper` and `EnhancedConverter` (the
  "mapping-augmented renderer"), modelled further down;
* `src/optimizer.py` — `ConversionCache`, modelled at the end.

Python machine-level details that matter are modelled explicitly, most
importantly that Python's `bool` is a subclass of `int`, so
`isinstance(True, int)` is `True` (see `inferType`).

Lists in recursive positions of the tree types are spelled as dedicated
mutual inductives (`CoreExprList`, `CoreBlock`, ...) so that all renderer
functions are structurally recursive and kernel-computable; `exprList` /
`block` convert ordinary list literals into them when writing trees.
-/

/-- An association-list lookup mirroring Python's `dict.get(key)` on a
dict written as a literal with distinct keys. -/
def lookupStr : List (String × String) → String → Option String
  | [], _ => none
  | (k, v) :: rest, s => if k = s then some v else lookupStr rest s

/-- A Python constant (`ast.Constant`-carried value) as the renderers see it.
`floatC` carries the decimal text that `str()` would print for the float;
no claim in this development depends on float arithmetic. -/
inductive PyConst where
  | intC (n : Int)
  | boolC (b : Bool)
  | floatC (text : String)
  | strC (s : String)
  | noneC
deriving DecidableEq

/-- Binary operators as dispatched by `JavaStyleConverter._get_binop`
(src/core.py lines 255-267): five mapped operators, everything else falls
back to `str(op)`, carried here as `otherOp`. -/
inductive CoreBinOp where
  | add | sub | mult | div | mod
  | otherOp (text : String)
deriving DecidableEq

/-- Comparison operators as dispatched by `JavaStyleConverter._get_cmpop`
(src/core.py lines 269-283). -/
inductive CoreCmpOp where
  | eqOp | neOp | ltOp | leOp | gtOp | geOp
  | otherCmp (text : String)
deriving DecidableEq

mutual

/-- Expression nodes of the parsed tree, restricted to the shapes
`JavaStyleConverter._get_value_code` dispatches on (src/core.py lines
213-247).  `compare` keeps the first operator/comparator link apart from the
ignored tail, mirroring the code reading `node.ops[0]`/`node.comparators[0]`
(a parsed comparison always has at least one link).  `joinedStr` is an
f-string (`ast.JoinedStr`): a sequence of literal and formatted fragments.
`otherE` carries the `str(node)` fallback text of any node kind without a
dedicated branch. -/
inductive CoreExpr where
  | nameE (id : String)
  | constE (c : PyConst)
  | listE (elts : CoreExprList)
  | dictE (pairs : CorePairList)
  | binOp (l : CoreExpr) (op : CoreBinOp) (r : CoreExpr)
  | compare (l : CoreExpr) (op : CoreCmpOp) (cmp : CoreExpr) (rest : CmpRestList)
  | callE (f : CoreExpr) (args : CoreExprList)
  | attributeE (v : CoreExpr) (attr : String)
  | joinedStr (parts : JPartList)
  | otherE (text : String)

inductive CoreExprList where
  | nil
  | cons (e : CoreExpr) (rest : CoreExprList)

inductive CorePairList where
  | nil
  | cons (k v : CoreExpr) (rest : CorePairList)

inductive CmpRestList where
  | nil
  | cons (op : CoreCmpOp) (e : CoreExpr) (rest : CmpRestList)

inductive JPartList where
  | nil
  | consLit (s : String) (rest : JPartList)
  | consFmt (e : CoreExpr) (rest : JPartList)

end

/-- Build a `CoreExprList` from a list literal. -/
def exprList : List CoreExpr → CoreExprList
  | [] => .nil
  | e :: rest => .cons e (exprList rest)

/-- `JavaStyleConverter._get_binop`. -/
def binOpText : CoreBinOp → String
  | .add => "+"
  | .sub => "-"
  | .mult => "*"
  | .div => "/"
  | .mod => "%"
  | .otherOp t => t

/-- `JavaStyleConverter._get_cmpop`. -/
def cmpOpText : CoreCmpOp → String
  | .eqOp => "=="
  | .neOp => "!="
  | .ltOp => "<"
  | .leOp => "<="
  | .gtOp => ">"
  | .geOp => ">="
  | .otherCmp t => t

/-- The constant branch of `_get_value_code`: a string constant is wrapped
in double quotes with NO escaping — faithful to the f-string interpolation
the source uses; every other constant is printed the way `str()` prints
it (`True`/`False`/`None`, decimal integers). -/
def renderConst : PyConst → String
  | .strC s => "\"" ++ s ++ "\""
  | .intC n => toString n
  | .boolC b => if b then "True" else "False"
  | .floatC t => t
  | .noneC => "None"

mutual

/-- `JavaStyleConverter._get_value_code` (src/core.py lines 213-247).
The `callE` branch inlines `_get_call_code`; see `getCallCode` below. -/
def getValueCode : CoreExpr → String
  | .nameE id => id
  | .constE c => renderConst c
  | .listE elts => "Arrays.asList(" ++ String.intercalate ", " (gvcList elts) ++ ")"
  | .dictE pairs => "Map.of(" ++ String.intercalate ", " (gvcPairs pairs) ++ ")"
  | .binOp l op r =>
      "(" ++ getValueCode l ++ " " ++ binOpText op ++ " " ++ getValueCode r ++ ")"
  | .compare l op cmp _ =>
      "(" ++ getValueCode l ++ " " ++ cmpOpText op ++ " " ++ getValueCode cmp ++ ")"
  | .callE f args =>
      getValueCode f ++ "(" ++ String.intercalate ", " (gvcList args) ++ ")"
  | .attributeE v attr => getValueCode v ++ "." ++ attr
  | .joinedStr parts => String.intercalate " + " (gvcParts parts)
  | .otherE t => t
termination_by structural e => e

def gvcList : CoreExprList → List String
  | .nil => []
  | .cons e es => getValueCode e :: gvcList es
termination_by structural l => l

def gvcPairs : CorePairList → List String
  | .nil => []
  | .cons k v rest => (getValueCode k ++ ", " ++ getValueCode v) :: gvcPairs rest
termination_by structural l => l

/-- `JavaStyleConverter.visit_JoinedStr` (src/core.py lines 198-207):
literal fragments are quoted, formatted values rendered recursively, all
joined with `+`. -/
def gvcParts : JPartList → List String
  | .nil => []
  | .consLit s rest => ("\"" ++ s ++ "\"") :: gvcParts rest
  | .consFmt e rest => getValueCode e :: gvcParts rest
termination_by structural l => l

end

/-- `JavaStyleConverter._get_call_code` (src/core.py lines 249-253). -/
def getCallCode (f : CoreExpr) (args : CoreExprList) : String :=
  getValueCode f ++ "(" ++ String.intercalate ", " (gvcList args) ++ ")"

/-- `JavaStyleConverter._infer_type` (src/core.py lines 299-318).
NOTE the `boolC` row: in Python `bool` is a subclass of `int`, so
`isinstance(True, int)` holds and the `isinstance(node.value, int)` branch
catches booleans first; the later `isinstance(node.value, bool)` branch in
the source is unreachable.  A `None` constant matches none of the
`isinstance` checks and falls through to the final `return "Object"`. -/
def inferType : CoreExpr → String
  | .constE (.intC _) => "int"
  | .constE (.boolC _) => "int"
  | .constE (.floatC _) => "double"
  | .constE (.strC _) => "String"
  | .constE .noneC => "Object"
  | .listE _ => "List<Object>"
  | .dictE _ => "Map<Object, Object>"
  | _ => "Object"

/-- The literal mapping dict inside `_get_type_annotation` (src/core.py
lines 285-297). -/
def coreTypeMap : List (String × String) :=
  [("int", "int"), ("str", "String"), ("float", "double"),
   ("bool", "boolean"), ("list", "List"), ("dict", "Map")]

/-- `JavaStyleConverter._get_type_annotation`. -/
def typeAnnotation : CoreExpr → String
  | .nameE id => (lookupStr coreTypeMap id).getD "Object"
  | _ => "Object"

mutual

/-- Statement nodes handled by `JavaStyleConverter`.  `otherS` models any
statement kind with no dedicated `visit_` method:
`ast.NodeVisitor.generic_visit` descends into the children, and the only
state-mutating visits that can be reached are those of nested statements,
collected here as `children`. -/
inductive CoreStmt where
  | classDef (name : String) (bases : List CoreExpr) (body : CoreBlock)
  | funcDef (name : String) (args : List String) (returns : Option CoreExpr)
      (body : CoreBlock)
  | assign (targets : List CoreExpr) (value : CoreExpr)
  | returnS (value : Option CoreExpr)
  | ifS (test : CoreExpr) (body orelse : CoreBlock)
  | forS (target iter : CoreExpr) (body : CoreBlock)
  | whileS (test : CoreExpr) (body : CoreBlock)
  | exprS (value : CoreExpr)
  | otherS (children : CoreBlock)

inductive CoreBlock where
  | nil
  | cons (s : CoreStmt) (rest : CoreBlock)

end

/-- Build a `CoreBlock` from a list literal. -/
def block : List CoreStmt → CoreBlock
  | [] => .nil
  | s :: rest => .cons s (block rest)

/-- The mutable state of `JavaStyleConverter` (src/core.py lines 15-19).
`class_stack` keeps Python's list order: innermost enclosing class last. -/
structure CoreState where
  indent_level : Nat
  lines : List String
  class_stack : List String
  in_method : Bool
deriving DecidableEq

def initCoreState : CoreState := ⟨0, [], [], false⟩

/-- Python `"    " * n`. -/
def indentText : Nat → String
  | 0 => ""
  | n + 1 => "    " ++ indentText n

/-- Python's `line.strip()` is falsy exactly when every character of the
line is whitespace. -/
def isBlankLine (s : String) : Bool := s.data.all Char.isWhitespace

/-- `JavaStyleConverter.add_line` (src/core.py lines 38-43), always called
with `indent=True`: a line that is non-blank after stripping is prefixed
with the current indentation. -/
def addLine (st : CoreState) (line : String) : CoreState :=
  if isBlankLine line then { st with lines := st.lines ++ [line] }
  else { st with lines := st.lines ++ [indentText st.indent_level ++ line] }

mutual

/-- One `visit_*` statement handler of `JavaStyleConverter`
(src/core.py lines 45-196), as a state transformer. -/
def visitStmt : CoreStmt → CoreState → CoreState
  | .classDef name bases body, st =>
      let baseClasses := bases.filterMap fun b =>
        match b with | .nameE s => some s | _ => none
      let ext := if baseClasses.isEmpty then ""
        else " extends " ++ String.intercalate ", " baseClasses
      let st1 := addLine st ("public class " ++ name ++ ext ++ " \x7b")
      let st2 := { st1 with class_stack := st1.class_stack ++ [name],
                            indent_level := st1.indent_level + 1 }
      let st3 := visitBlock body st2
      let st4 := addLine { st3 with indent_level := st3.indent_level - 1 } "\x7d"
      { st4 with class_stack := st4.class_stack.dropLast }
  | .funcDef fname args ret body, st =>
      -- `method_name` is reassigned to the class name BEFORE the parameter
      -- loop, so the loop's `method_name == "__init__"` test compares the
      -- class name, exactly as the source does (src/core.py lines 75-92).
      let methodName := if fname = "__init__"
        then (st.class_stack.getLast?.getD "Constructor") else fname
      let returns := match ret with
        | some t => typeAnnotation t
        | none => "Object"
      let params := args.filterMap fun a =>
        if a = "self" then none
        else
          let ptype :=
            if methodName = "__init__" ∧ a = "name" then "String"
            else if a = "a" ∨ a = "b" ∨ a = "x" ∨ a = "y" then "int"
            else "Object"
          some (ptype ++ " " ++ a)
      let st1 := addLine st ("public " ++ returns ++ " " ++ methodName ++ "(" ++
        String.intercalate ", " params ++ ") \x7b")
      let st2 := { st1 with in_method := true, indent_level := st1.indent_level + 1 }
      let st3 := visitBlock body st2
      let st4 := addLine { st3 with indent_level := st1.indent_level } "\x7d"
      { st4 with in_method := false }
  | .assign targets value, st =>
      -- `node.value` is always a node (truthy), so only the target filter
      -- decides whether anything is emitted (src/core.py lines 112-129).
      let names := targets.filterMap fun t =>
        match t with | .nameE s => some s | _ => none
      match names with
      | [] => st
      | [n] =>
          addLine st (inferType value ++ " " ++ n ++ " = " ++
            getValueCode value ++ ";")
      | ns =>
          let st1 := addLine st (inferType value ++ " " ++
            String.intercalate ", " ns ++ ";")
          ns.foldl (fun acc n => addLine acc (n ++ " = " ++ getValueCode value ++ ";")) st1
  | .returnS val, st =>
      match val with
      | some v => addLine st ("return " ++ getValueCode v ++ ";")
      | none => addLine st "return;"
  | .ifS test body orelse, st =>
      let st1 := addLine st ("if (" ++ getValueCode test ++ ") \x7b")
      let st2 := visitBlock body { st1 with indent_level := st1.indent_level + 1 }
      let st3 := addLine { st2 with indent_level := st2.indent_level - 1 } "\x7d"
      match orelse with
      | .nil => st3
      | _ =>
          let st4 := addLine st3 "else \x7b"
          let st5 := visitBlock orelse { st4 with indent_level := st4.indent_level + 1 }
          addLine { st5 with indent_level := st5.indent_level - 1 } "\x7d"
  | .forS target iter body, st =>
      let st1 := addLine st ("for (" ++ getValueCode target ++ " : " ++
        getValueCode iter ++ ") \x7b")
      let st2 := visitBlock body { st1 with indent_level := st1.indent_level + 1 }
      addLine { st2 with indent_level := st2.indent_level - 1 } "\x7d"
  | .whileS test body, st =>
      let st1 := addLine st ("while (" ++ getValueCode test ++ ") \x7b")
      let st2 := visitBlock body { st1 with indent_level := st1.indent_level + 1 }
      addLine { st2 with indent_level := st2.indent_level - 1 } "\x7d"
  | .exprS value, st =>
      match value with
      | .callE f args => addLine st (getCallCode f args ++ ";")
      | .constE (.strC s) => addLine st ("System.out.println(\"" ++ s ++ "\");")
      | _ => st
  | .otherS children, st => visitBlock children st
termination_by structural s _ => s

def visitBlock : CoreBlock → CoreState → CoreState
  | .nil, st => st
  | .cons s rest, st => visitBlock rest (visitStmt s st)
termination_by structural b _ => b

end

/-- The success branch of `JavaStyleConverter.convert` (src/core.py lines
23-34): visit the module body, then prepend the package header when the
class stack is non-empty after traversal. -/
def coreConvertOk (body : CoreBlock) : String :=
  let st := visitBlock body initCoreState
  if st.class_stack.isEmpty then String.intercalate "\n" st.lines
  else String.intercalate "\n" (["package pythva.generated;", ""] ++ st.lines)

/-- `JavaStyleConverter.convert` (src/core.py lines 21-36).  Parsing is the
external `ast.parse` call; its outcome is the `parsed` argument.  A
`SyntaxError` is caught and turned into the error comment followed by the
original input. -/
def convert_basic (parsed : Except String CoreBlock) (code : String) : String :=
  match parsed with
  | .ok body => coreConvertOk body
  | .error e => "// 语法错误: " ++ e ++ "\n" ++ code

-- The §8 HelloWorld program of the spec, as its parsed tree.
def helloWorldProgram : CoreBlock :=
  block
    [ .classDef "HelloWorld" [] (block
        [ .funcDef "__init__" ["self", "name"] none (block
            [ .assign [.attributeE (.nameE "self") "name"] (.nameE "name") ]),
          .funcDef "greet" ["self"] none (block
            [ .exprS (.callE (.nameE "print")
                (exprList [.joinedStr
                  (.consLit "Hello, "
                    (.consFmt (.attributeE (.nameE "self") "name")
                      (.consLit "!" .nil)))])) ]) ]) ]

/-- Does the character list `needle` occur as a prefix of `hay`? -/
def listStarts : List Char → List Char → Bool
  | [], _ => true
  | _ :: _, [] => false
  | n :: ns, h :: hs => n == h && listStarts ns hs

/-- Does `needle` occur as a contiguous sublist of `hay`? -/
def listContainsSub (needle : List Char) : List Char → Bool
  | [] => listStarts needle []
  | h :: hs => listStarts needle (h :: hs) || listContainsSub needle hs

/-- Substring occurrence test, kernel-computable. -/
def strContains (hay needle : String) : Bool := listContainsSub needle.data hay.data

/- ### Context-restoration lemmas for the basic renderer (claim C9) -/

theorem addLine_indent (st : CoreState) (l : String) :
    (addLine st l).indent_level = st.indent_level := by
  unfold addLine; split <;> rfl

theorem addLine_stack (st : CoreState) (l : String) :
    (addLine st l).class_stack = st.class_stack := by
  unfold addLine; split <;> rfl

theorem foldlAddLine_indent (g : String → String) (ns : List String) (st : CoreState) :
    (ns.foldl (fun acc n => addLine acc (g n)) st).indent_level = st.indent_level := by
  induction ns generalizing st with
  | nil => rfl
  | cons n rest ih => simp only [List.foldl_cons, ih, addLine_indent]

theorem foldlAddLine_stack (g : String → String) (ns : List String) (st : CoreState) :
    (ns.foldl (fun acc n => addLine acc (g n)) st).class_stack = st.class_stack := by
  induction ns generalizing st with
  | nil => rfl
  | cons n rest ih => simp only [List.foldl_cons, ih, addLine_stack]

mutual

theorem visitStmt_pres (s : CoreStmt) (st : CoreState) :
    (visitStmt s st).indent_level = st.indent_level ∧
    (visitStmt s st).class_stack = st.class_stack := by
  cases s with
  | classDef name bases body =>
      simp only [visitStmt]
      simp [addLine_indent, addLine_stack, visitBlock_pres body, List.dropLast_concat]
  | funcDef fname args ret body =>
      simp only [visitStmt]
      simp [addLine_indent, addLine_stack, visitBlock_pres body]
  | assign targets value =>
      simp only [visitStmt]
      split
      · exact ⟨rfl, rfl⟩
      · simp [addLine_indent, addLine_stack]
      · simp [addLine_indent, addLine_stack, foldlAddLine_indent, foldlAddLine_stack]
  | returnS val =>
      cases val <;> simp [visitStmt, addLine_indent, addLine_stack]
  | ifS test body oe =>
      have hb := visitBlock_pres body
      have ho := visitBlock_pres oe
      simp only [visitStmt]
      split <;> simp [addLine_indent, addLine_stack, hb, ho]
  | forS target iter body =>
      simp only [visitStmt]
      simp [addLine_indent, addLine_stack, visitBlock_pres body]
  | whileS test body =>
      simp only [visitStmt]
      simp [addLine_indent, addLine_stack, visitBlock_pres body]
  | exprS value =>
      simp only [visitStmt]
      split <;> simp [addLine_indent, addLine_stack]
  | otherS children =>
      simp only [visitStmt]
      exact visitBlock_pres children st
termination_by structural s

theorem visitBlock_pres (b : CoreBlock) (st : CoreState) :
    (visitBlock b st).indent_level = st.indent_level ∧
    (visitBlock b st).class_stack = st.class_stack := by
  cases b with
  | nil => exact ⟨rfl, rfl⟩
  | cons s rest =>
      have h1 := visitStmt_pres s st
      have h2 := visitBlock_pres rest (visitStmt s st)
      simp only [visitBlock]
      exact ⟨h2.1.trans h1.1, h2.2.trans h1.2⟩
termination_by structural b

end

/-- C9: every statement handler of the basic renderer restores the render
context's structural state: for every statement node, after the handler
returns, `indent_level` equals its value on entry and the enclosing-type
stack `class_stack` equals its contents on entry. -/
theorem C9_handlers_restore_context (s : CoreStmt) (st : CoreState) :
    (visitStmt s st).indent_level = st.indent_level ∧
    (visitStmt s st).class_stack = st.class_stack :=
  visitStmt_pres s st

/-- C10: an assignment statement none of whose targets is a plain
identifier (`ast.Name`) emits no output line at all: the accumulated
lines are unchanged (`visit_Assign` filters targets down to plain names
and does nothing when that filter is empty, src/core.py lines 112-129). -/
theorem C10_assign_without_name_target_emits_nothing
    (targets : List CoreExpr) (value : CoreExpr) (st : CoreState)
    (h : ∀ t ∈ targets, ∀ s, t ≠ CoreExpr.nameE s) :
    (visitStmt (.assign targets value) st).lines = st.lines := by
  have hnil : (targets.filterMap fun t =>
      match t with | .nameE s => some s | _ => none) = [] := by
    rw [List.filterMap_eq_nil_iff]
    intro t ht
    cases t with
    | nameE s => exact absurd rfl (h _ ht s)
    | _ => rfl
  simp [visitStmt, hnil]

/-- Witness for C10 at the §8 constructor body statement
`self.name = name`: an attribute target, so nothing is emitted. -/
theorem C10_assign_without_name_target_emits_nothing_witness :
    (visitStmt (.assign [.attributeE (.nameE "self") "name"] (.nameE "name"))
      initCoreState).lines = initCoreState.lines := by
  apply C10_assign_without_name_target_emits_nothing
  intro t ht s
  simp only [List.mem_singleton] at ht
  subst ht
  simp

-- The single-class, constructor-only program of claim C2:
-- `class HelloWorld:` / `def __init__(self, name): self.name = name`.
def c2Program : CoreBlock :=
  block
    [ .classDef "HelloWorld" [] (block
        [ .funcDef "__init__" ["self", "name"] none (block
            [ .assign [.attributeE (.nameE "self") "name"] (.nameE "name") ]) ]) ]

/-- C2 (code bug): on the single-class constructor-only program whose sole
constructor parameter is named "name", the basic renderer emits the
constructor under the class name (as the claim says) but types the
parameter `Object`, not `String`: `method_name` has already been reassigned
to the class name when the `method_name == "__init__"` guard for the
String heuristic runs (src/core.py lines 75-92), so that branch is dead.
The repository's own test asserts `public HelloWorld(String name)`
(src/test_converter.py line 38), which this output violates. -/
theorem C2_constructor_name_param_rendered_object :
    coreConvertOk c2Program =
      "public class HelloWorld \x7b\n" ++
      "    public Object HelloWorld(Object name) \x7b\n" ++
      "    \x7d\n" ++
      "\x7d" := by rfl

/-- C3 (code bug): the basic renderer's literal type-inference maps integer,
float and string constants per the table, but a boolean constant is typed
`int`, not `boolean`: Python's `bool` subclasses `int`, so the
`isinstance(node.value, int)` branch fires first and the `bool` branch of
`_infer_type` (src/core.py lines 308-313) is unreachable.  `z = True`
therefore renders `int z = True;` while the repository's own test asserts
`boolean z = true` (src/test_converter.py line 89). -/
theorem C3_bool_literal_assign_renders_int :
    inferType (.constE (.intC 10)) = "int" ∧
    inferType (.constE (.floatC "1.5")) = "double" ∧
    inferType (.constE (.strC "hello")) = "String" ∧
    inferType (.constE (.boolC true)) = "int" ∧
    (visitStmt (.assign [.nameE "z"] (.constE (.boolC true))) initCoreState).lines =
      ["int z = True;"] := by
  refine ⟨rfl, rfl, rfl, rfl, rfl⟩

/-- C4 counterexample: on the §8 HelloWorld input the basic variant's output
is exactly the seven lines below, and no line of it is a console-print
(`System.out.println`) call — the basic renderer has no builtin mapping and
renders the `print` call verbatim — so the claim's "console-print call"
body line does not exist in the output. -/
theorem C4_no_console_print_line_in_basic_output :
    (visitBlock helloWorldProgram initCoreState).lines =
      [ "public class HelloWorld \x7b",
        "    public Object HelloWorld(Object name) \x7b",
        "    \x7d",
        "    public Object greet() \x7b",
        "        print(\"Hello, \" + self.name + \"!\");",
        "    \x7d",
        "\x7d" ] ∧
    ((visitBlock helloWorldProgram initCoreState).lines.all
      fun l => !(strContains l "System.out.println")) = true := by
  exact ⟨rfl, rfl⟩

/-- C4 as amended: the §8 output contains the class header line, a
constructor line naming the class, and a `greet` body line that is a
verbatim `print` call (not a console-print call) whose argument
concatenates the literal `"Hello, "`, the rendered `self.name` access and
`"!"` joined by `+`. -/
theorem C4_hello_world_lines :
    "public class HelloWorld \x7b" ∈ (visitBlock helloWorldProgram initCoreState).lines ∧
    "    public Object HelloWorld(Object name) \x7b" ∈
      (visitBlock helloWorldProgram initCoreState).lines ∧
    "        print(\"Hello, \" + self.name + \"!\");" ∈
      (visitBlock helloWorldProgram initCoreState).lines := by
  refine ⟨?_, ?_, ?_⟩ <;> decide

/-! ### The mapping-augmented renderer (src/mapper.py) -/

/-- `SyntaxMapper.TYPE_MAPPING` (src/mapper.py lines 16-28). -/
def TYPE_MAPPING : List (String × String) :=
  [("int", "int"), ("float", "double"), ("str", "String"), ("bool", "boolean"),
   ("list", "List"), ("dict", "Map"), ("tuple", "List"), ("set", "Set"),
   ("None", "null"), ("True", "true"), ("False", "false")]

/-- `SyntaxMapper.FUNCTION_MAPPING` (src/mapper.py lines 31-42). -/
def FUNCTION_MAPPING : List (String × String) :=
  [("print", "System.out.println"), ("len", "Collection.size"),
   ("range", "IntStream.range"), ("enumerate", "List.of"), ("zip", "List.of"),
   ("sum", "Collection.sum"), ("max", "Collections.max"),
   ("min", "Collections.min"), ("abs", "Math.abs"), ("round", "Math.round")]

/-- `SyntaxMapper.MAGIC_METHODS` (src/mapper.py lines 45-63). -/
def MAGIC_METHODS : List (String × String) :=
  [("__init__", "constructor"), ("__str__", "toString"), ("__repr__", "toString"),
   ("__len__", "size"), ("__getitem__", "get"), ("__setitem__", "set"),
   ("__iter__", "iterator"), ("__next__", "next"), ("__eq__", "equals"),
   ("__lt__", "compareTo"), ("__le__", "compareTo"), ("__gt__", "compareTo"),
   ("__ge__", "compareTo"), ("__add__", "plus"), ("__sub__", "minus"),
   ("__mul__", "multiply"), ("__truediv__", "divide")]

/-- `SyntaxMapper.map_type`: `TYPE_MAPPING.get(python_type, 'Object')`. -/
def map_type (s : String) : String := (lookupStr TYPE_MAPPING s).getD "Object"

/-- `SyntaxMapper.map_function`: table hit or the name unchanged. -/
def map_function (s : String) : String := (lookupStr FUNCTION_MAPPING s).getD s

/-- `SyntaxMapper.map_magic_method`: `MAGIC_METHODS.get(m, m)`. -/
def map_magic_method (s : String) : String := (lookupStr MAGIC_METHODS s).getD s

theorem lookupStr_eq_none_of_not_mem (tbl : List (String × String)) (s : String)
    (h : s ∉ tbl.map Prod.fst) : lookupStr tbl s = none := by
  induction tbl with
  | nil => rfl
  | cons p rest ih =>
      obtain ⟨k, v⟩ := p
      simp only [List.map_cons, List.mem_cons] at h
      push_neg at h
      rw [lookupStr, if_neg (fun hk => h.1 hk.symm), ih h.2]

/-- C7: the three lexical mapping functions are pure total functions over
strings (in this embedding purity and totality are inherent: each is a
finite-table lookup); re-application yields identical output, any type name
absent from `TYPE_MAPPING` maps to the generic `"Object"` placeholder, and
any builtin or special-method name absent from its table is returned
unchanged. -/
theorem C7_mapping_tables_pure_total_with_fallback (s : String) :
    map_type s = map_type s ∧
    map_function s = map_function s ∧
    map_magic_method s = map_magic_method s ∧
    (s ∉ TYPE_MAPPING.map Prod.fst → map_type s = "Object") ∧
    (s ∉ FUNCTION_MAPPING.map Prod.fst → map_function s = s) ∧
    (s ∉ MAGIC_METHODS.map Prod.fst → map_magic_method s = s) := by
  refine ⟨rfl, rfl, rfl, ?_, ?_, ?_⟩ <;> intro h <;>
    simp [map_type, map_function, map_magic_method,
      lookupStr_eq_none_of_not_mem _ _ h]

/-- Witness for C7 at the unmapped name "frobnicate". -/
theorem C7_mapping_tables_pure_total_with_fallback_witness :
    map_type "frobnicate" = "Object" ∧
    map_function "frobnicate" = "frobnicate" ∧
    map_magic_method "frobnicate" = "frobnicate" :=
  ⟨(C7_mapping_tables_pure_total_with_fallback "frobnicate").2.2.2.1 (by decide),
   (C7_mapping_tables_pure_total_with_fallback "frobnicate").2.2.2.2.1 (by decide),
   (C7_mapping_tables_pure_total_with_fallback "frobnicate").2.2.2.2.2 (by decide)⟩

/-- Binary operators as dispatched by `EnhancedConverter._get_binop`
(src/mapper.py lines 249-265): twelve mapped operators,
`str(op)` fallback otherwise (`ast.MatMult` is the one unmapped case). -/
inductive MBinOp where
  | add | sub | mult | div | mod | pow | lshift | rshift
  | bitor | bitxor | bitand | floordiv
  | otherOp (text : String)
deriving DecidableEq

def mBinOpText : MBinOp → String
  | .add => "+"
  | .sub => "-"
  | .mult => "*"
  | .div => "/"
  | .mod => "%"
  | .pow => "**"
  | .lshift => "<<"
  | .rshift => ">>"
  | .bitor => "|"
  | .bitxor => "^"
  | .bitand => "&"
  | .floordiv => "//"
  | .otherOp t => t

mutual

/-- Expression nodes of the parsed tree, restricted to the shapes
`EnhancedConverter._get_value_code` dispatches on (src/mapper.py lines
228-247): names, constants, list/dict literals, calls, binary operations;
`otherE` carries the `str(node)` fallback text of anything else. -/
inductive MExpr where
  | nameE (s : String)
  | constE (c : PyConst)
  | listE (elts : MExprList)
  | dictE (pairs : MPairList)
  | callE (f : MExpr) (args : MExprList)
  | binOp (l : MExpr) (op : MBinOp) (r : MExpr)
  | otherE (text : String)

inductive MExprList where
  | nil
  | cons (e : MExpr) (rest : MExprList)

inductive MPairList where
  | nil
  | cons (k v : MExpr) (rest : MPairList)

end

/-- Build an `MExprList` from a list literal. -/
def mExprList : List MExpr → MExprList
  | [] => .nil
  | e :: rest => .cons e (mExprList rest)

mutual

/-- `EnhancedConverter._get_value_code` (src/mapper.py lines 228-247).
The `callE` branch inlines `visit_Call`; `mVisitCall` below restates it as
a standalone definition. -/
def mGetValueCode : MExpr → String
  | .nameE s => s
  | .constE c => renderConst c
  | .listE elts =>
      match elts with
      | .nil => "new ArrayList<>()"
      | _ => "Arrays.asList(" ++ String.intercalate ", " (mArgs elts) ++ ")"
  | .dictE pairs =>
      match pairs with
      | .nil => "new HashMap<>()"
      | _ => "Map.of(" ++ String.intercalate ", " (mPairsCode pairs) ++ ")"
  | .callE f args =>
      -- the joined-argument text is hoisted out of the branches (it is a
      -- pure computation, so this does not change any rendered value)
      let funcName := mGetValueCode f
      let argsCode := String.intercalate ", " (mArgs args)
      if funcName = "print" then
        "System.out.println(" ++ argsCode ++ ")"
      else if funcName = "len" then
        match args with
        | .cons a _ => mGetValueCode a ++ ".size()"
        | .nil => funcName ++ "(" ++ argsCode ++ ")"
      else if funcName = "range" then
        match args with
        | .cons a .nil => "IntStream.range(0, " ++ mGetValueCode a ++ ")"
        | .cons a (.cons b .nil) =>
            "IntStream.range(" ++ mGetValueCode a ++ ", " ++ mGetValueCode b ++ ")"
        | _ => funcName ++ "(" ++ argsCode ++ ")"
      else funcName ++ "(" ++ argsCode ++ ")"
  | .binOp l op r =>
      "(" ++ mGetValueCode l ++ " " ++ mBinOpText op ++ " " ++ mGetValueCode r ++ ")"
  | .otherE t => t
termination_by structural e => e

def mArgs : MExprList → List String
  | .nil => []
  | .cons e rest => mGetValueCode e :: mArgs rest
termination_by structural l => l

def mPairsCode : MPairList → List String
  | .nil => []
  | .cons k v rest => (mGetValueCode k ++ ", " ++ mGetValueCode v) :: mPairsCode rest
termination_by structural l => l

end

/-- `EnhancedConverter.visit_List` (src/mapper.py lines 184-191): non-empty
literals render as a fixed-size-collection call, the empty literal as an
explicit empty constructor call.  Definitionally equal to the `listE`
branch of `mGetValueCode`. -/
def mVisitList (elts : MExprList) : String :=
  match elts with
  | .nil => "new ArrayList<>()"
  | _ => "Arrays.asList(" ++ String.intercalate ", " (mArgs elts) ++ ")"

/-- `EnhancedConverter.visit_Dict` (src/mapper.py lines 193-202). -/
def mVisitDict (pairs : MPairList) : String :=
  match pairs with
  | .nil => "new HashMap<>()"
  | _ => "Map.of(" ++ String.intercalate ", " (mPairsCode pairs) ++ ")"

/-- `EnhancedConverter.visit_Call` (src/mapper.py lines 204-226): the
builtin-specific rewrites.  A `len` call with no argument and a `range`
call with zero or three-plus arguments fall through the `if` chain to the
default `callee(args)` rendering; a `len` call with one or more arguments
takes the `len` branch and keeps only the first argument.  Definitionally
equal to the `callE` branch of `mGetValueCode`. -/
def mVisitCall (f : MExpr) (args : MExprList) : String :=
  let funcName := mGetValueCode f
  let argsCode := String.intercalate ", " (mArgs args)
  if funcName = "print" then
    "System.out.println(" ++ argsCode ++ ")"
  else if funcName = "len" then
    match args with
    | .cons a _ => mGetValueCode a ++ ".size()"
    | .nil => funcName ++ "(" ++ argsCode ++ ")"
  else if funcName = "range" then
    match args with
    | .cons a .nil => "IntStream.range(0, " ++ mGetValueCode a ++ ")"
    | .cons a (.cons b .nil) =>
        "IntStream.range(" ++ mGetValueCode a ++ ", " ++ mGetValueCode b ++ ")"
    | _ => funcName ++ "(" ++ argsCode ++ ")"
  else funcName ++ "(" ++ argsCode ++ ")"

/-- Number of arguments of a call. -/
def mLen : MExprList → Nat
  | .nil => 0
  | .cons _ rest => mLen rest + 1

/-- C6 counterexample: the call `len(a, b)` matches none of the claim's
listed patterns (it is not `len(x)` with one argument), so under the
claim it must pass through as `len(a, b)`; the code instead takes the
`len` branch and renders the first argument only, `a.size()`. -/
theorem C6_len_two_args_not_passed_through :
    mVisitCall (.nameE "len") (mExprList [.nameE "a", .nameE "b"]) = "a.size()" ∧
    "a.size()" ≠ "len(a, b)" := ⟨rfl, by decide⟩

/-- C6 as amended: in `visit_Call`, a call whose rendered callee is `print`
becomes a console-print of the comma-joined arguments; a `len` call with at
least one argument renders as its FIRST rendered argument followed by
`.size()` (extra arguments are dropped); a `len` call with no arguments
renders as `len()`; `range` with exactly one argument becomes
`IntStream.range(0, arg)`, with exactly two `IntStream.range(a, b)`, and
with zero or three-plus arguments passes through; every call whose callee
is none of `print`, `len`, `range` passes through as `callee(args)`. -/
theorem C6_call_rewrite_rules (f : MExpr) (args : MExprList) :
    (mGetValueCode f = "print" →
      mVisitCall f args =
        "System.out.println(" ++ String.intercalate ", " (mArgs args) ++ ")") ∧
    (∀ a rest, mGetValueCode f = "len" → args = .cons a rest →
      mVisitCall f args = mGetValueCode a ++ ".size()") ∧
    (mGetValueCode f = "len" → args = .nil → mVisitCall f args = "len()") ∧
    (∀ a, mGetValueCode f = "range" → args = .cons a .nil →
      mVisitCall f args = "IntStream.range(0, " ++ mGetValueCode a ++ ")") ∧
    (∀ a b, mGetValueCode f = "range" → args = .cons a (.cons b .nil) →
      mVisitCall f args =
        "IntStream.range(" ++ mGetValueCode a ++ ", " ++ mGetValueCode b ++ ")") ∧
    (mGetValueCode f = "range" → mLen args ≠ 1 → mLen args ≠ 2 →
      mVisitCall f args =
        "range(" ++ String.intercalate ", " (mArgs args) ++ ")") ∧
    (mGetValueCode f ≠ "print" → mGetValueCode f ≠ "len" → mGetValueCode f ≠ "range" →
      mVisitCall f args =
        mGetValueCode f ++ "(" ++ String.intercalate ", " (mArgs args) ++ ")") := by
  refine ⟨?_, ?_, ?_, ?_, ?_, ?_, ?_⟩
  · intro h
    simp [mVisitCall, h]
  · intro a rest h harg
    subst harg
    simp [mVisitCall, h]
  · intro h harg
    subst harg
    simp only [mVisitCall, h, mArgs]
    rfl
  · intro a h harg
    subst harg
    simp [mVisitCall, h]
  · intro a b h harg
    subst harg
    simp [mVisitCall, h]
  · intro h h1 h2
    rcases args with _ | ⟨a, _ | ⟨b, _ | ⟨c, r⟩⟩⟩
    · simp [mVisitCall, h]
    · simp [mLen] at h1
    · simp [mLen] at h2
    · simp [mVisitCall, h]
  · intro h1 h2 h3
    simp [mVisitCall, h1, h2, h3]

/-- Witness for C6 at the call `print(x)`. -/
theorem C6_call_rewrite_rules_witness :
    mVisitCall (.nameE "print") (mExprList [.nameE "x"]) = "System.out.println(x)" :=
  ((C6_call_rewrite_rules (.nameE "print") (mExprList [.nameE "x"])).1 rfl).trans (by rfl)

mutual

/-- Statement nodes as `EnhancedConverter` sees them.  The converter
overrides only `visit_Import` and `visit_ImportFrom` among statements; for
every other statement kind `generic_visit` descends into the child
expressions (whose visits are pure and emit nothing) and the nested
statements, modelled by `node`. -/
inductive EnhStmt where
  | importS (names : List String)
  | importFromS (module : Option String) (names : List String)
  | node (exprs : List MExpr) (children : EnhBlock)

inductive EnhBlock where
  | nil
  | cons (s : EnhStmt) (rest : EnhBlock)

end

/-- Build an `EnhBlock` from a list literal. -/
def enhBlock : List EnhStmt → EnhBlock
  | [] => .nil
  | s :: rest => .cons s (enhBlock rest)

-- The four import lines `_collect_info` can append (src/mapper.py 141-153).
def impListLine : String := "import java.util.List;"
def impArrayListLine : String := "import java.util.ArrayList;"
def impMapLine : String := "import java.util.Map;"
def impHashMapLine : String := "import java.util.HashMap;"

mutual

/-- The per-node contribution of `EnhancedConverter._collect_info`
(src/mapper.py lines 141-153): every list-literal node appends the
List/ArrayList pair, every dict-literal node the Map/HashMap pair, any
other node nothing (the `ast.Name` arm is an explicit `pass`).  The source
iterates `ast.walk` (breadth-first); this model walks depth-first — the
collected lines are the same multiset either way since each node
contributes a fixed group, and every property proved about the collection
below is order-insensitive. -/
def collectExpr : MExpr → List String
  | .listE elts => [impListLine, impArrayListLine] ++ collectExprList elts
  | .dictE pairs => [impMapLine, impHashMapLine] ++ collectPairList pairs
  | .callE f args => collectExpr f ++ collectExprList args
  | .binOp l _ r => collectExpr l ++ collectExpr r
  | _ => []
termination_by structural e => e

def collectExprList : MExprList → List String
  | .nil => []
  | .cons e rest => collectExpr e ++ collectExprList rest
termination_by structural l => l

def collectPairList : MPairList → List String
  | .nil => []
  | .cons k v rest => collectExpr k ++ collectExpr v ++ collectPairList rest
termination_by structural l => l

end

def collectExprs : List MExpr → List String
  | [] => []
  | e :: rest => collectExpr e ++ collectExprs rest

mutual

def collectStmt : EnhStmt → List String
  | .importS _ => []
  | .importFromS _ _ => []
  | .node exprs children => collectExprs exprs ++ collectBlock children
termination_by structural s => s

def collectBlock : EnhBlock → List String
  | .nil => []
  | .cons s rest => collectStmt s ++ collectBlock rest
termination_by structural b => b

end

/-- The mutable state of `EnhancedConverter` (src/mapper.py lines 119-125).
The `in_class` and `variables` fields of the source are never read or
written by any handler and         are omitted. -/
structure EnhState where
  imports : List String
  lines : List String
  indent_level : Nat
deriving DecidableEq

/-- `EnhancedConverter.add_line` (src/mapper.py lines 155-160), identical
logic to the basic renderer's. -/
def enhAddLine (st : EnhState) (line : String) : EnhState :=
  if isBlankLine line then { st with lines := st.lines ++ [line] }
  else { st with lines := st.lines ++ [indentText st.indent_level ++ line] }

/-- Python `name.startswith("pythva")`. -/
def startsWithPythva (s : String) : Bool := listStarts "pythva".data s.data

/-- The alias loop of `EnhancedConverter.visit_Import`
(src/mapper.py lines 162-171). -/
def visitImportNames : List String → EnhState → EnhState
  | [], st => st
  | n :: rest, st =>
      let st1 :=
        if startsWithPythva n then enhAddLine st ("import " ++ n ++ ".*;")
        else enhAddLine st ("// import " ++ n ++ " (需要手动转换)")
      visitImportNames rest st1

/-- The alias loop of `EnhancedConverter.visit_ImportFrom`
(src/mapper.py lines 173-182): `from typing import List` / `Dict` are
absorbed into the import list, everything else becomes a comment line. -/
def visitFromNames (m : String) : List String → EnhState → EnhState
  | [], st => st
  | n :: rest, st =>
      let st1 :=
        if m = "typing" ∧ n = "List" then
          { st with imports := st.imports ++ [impListLine] }
        else if m = "typing" ∧ n = "Dict" then
          { st with imports := st.imports ++ [impMapLine] }
        else enhAddLine st ("// from " ++ m ++ " import " ++ n ++ " (需要手动转换)")
      visitFromNames m rest st1

mutual

/-- The render pass of `EnhancedConverter`: only the import handlers touch
the state; every other statement recurses into its children (the
expression visits return strings that the visitor machinery discards). -/
def enhVisitStmt : EnhStmt → EnhState → EnhState
  | .importS names, st => visitImportNames names st
  | .importFromS mod names, st =>
      match mod with
      | none => st
      | some m => visitFromNames m names st
  | .node _ children, st => enhVisitBlock children st
termination_by structural s _ => s

def enhVisitBlock : EnhBlock → EnhState → EnhState
  | .nil, st => st
  | .cons s rest, st => enhVisitBlock rest (enhVisitStmt s st)
termination_by structural b _ => b

end

/-- `EnhancedConverter.convert` success path (src/mapper.py lines 127-139):
pre-scan collects imports, the render pass may append more and emits lines,
then the import block (when non-empty) is joined ahead of the lines with a
blank separator. -/
def convert_enhanced_ok (tree : EnhBlock) : String :=
  let st := enhVisitBlock tree
    { imports := collectBlock tree, lines := [], indent_level := 0 }
  let allLines := if st.imports.isEmpty then st.lines
    else st.imports ++ [""] ++ st.lines
  String.intercalate "\n" allLines

/-- `EnhancedConverter.convert` (src/mapper.py lines 127-139): unlike the
basic variant it has NO `try`/`except` around `ast.parse`, so a parse
failure propagates to the caller, modelled by the `.error` branch. -/
def convert_enhanced (parsed : Except String EnhBlock) (_code : String) :
    Except String String :=
  match parsed with
  | .ok tree => .ok (convert_enhanced_ok tree)
  | .error e => .error e

/-- C1 counterexample: on an input that fails to parse, the
mapping-augmented `convert` does not return normally with an error-marker
text — the parse error propagates out (`EnhancedConverter.convert` wraps
`ast.parse` in no handler), contradicting the claim for that variant. -/
theorem C1_enhanced_convert_propagates_parse_error :
    convert_enhanced (.error "invalid syntax (<unknown>, line 1)") "def f(:" =
      .error "invalid syntax (<unknown>, line 1)" := rfl

/-- C1 as amended: on a parse failure the BASIC `convert` returns normally
with the error-marker comment followed by the exact original input text
byte-for-byte, while the mapping-augmented `convert` raises the parse
error past the top-level call. -/
theorem C1_parse_failure_semantics (e code : String) :
    convert_basic (.error e) code = "// 语法错误: " ++ e ++ "\n" ++ code ∧
    convert_enhanced (.error e) code = .error e :=
  ⟨rfl, rfl⟩

/-! ### Import-collection counting (claim C5) -/

/-- Occurrence count of a string in a list. -/
def cnt (s : String) : List String → Nat
  | [] => 0
  | x :: rest => (if x = s then 1 else 0) + cnt s rest

theorem cnt_append (s : String) (l1 l2 : List String) :
    cnt s (l1 ++ l2) = cnt s l1 + cnt s l2 := by
  induction l1 with
  | nil => simp [cnt]
  | cons x rest ih => simp [cnt, ih, Nat.add_assoc]

/-- The list `out` contains the List/ArrayList import pair `c.1` times each
and the Map/HashMap pair `c.2` times each. -/
def ImportCountSpec (out : List String) (c : Nat × Nat) : Prop :=
  cnt impListLine out = c.1 ∧ cnt impArrayListLine out = c.1 ∧
  cnt impMapLine out = c.2 ∧ cnt impHashMapLine out = c.2

theorem ImportCountSpec.append {o1 o2 : List String} {c1 c2 : Nat × Nat}
    (h1 : ImportCountSpec o1 c1) (h2 : ImportCountSpec o2 c2) :
    ImportCountSpec (o1 ++ o2) (c1 + c2) := by
  refine ⟨?_, ?_, ?_, ?_⟩ <;>
    simp [cnt_append, Prod.fst_add, Prod.snd_add,
      h1.1, h1.2.1, h1.2.2.1, h1.2.2.2, h2.1, h2.2.1, h2.2.2.1, h2.2.2.2]

theorem spec_listPair : ImportCountSpec [impListLine, impArrayListLine] (1, 0) := by
  refine ⟨?_, ?_, ?_, ?_⟩ <;> decide

theorem spec_dictPair : ImportCountSpec [impMapLine, impHashMapLine] (0, 1) := by
  refine ⟨?_, ?_, ?_, ?_⟩ <;> decide

mutual

/-- Number of (list-literal, dict-literal) nodes in an expression tree. -/
def litCounts : MExpr → Nat × Nat
  | .listE elts => (1, 0) + litCountsEL elts
  | .dictE pairs => (0, 1) + litCountsPL pairs
  | .callE f args => litCounts f + litCountsEL args
  | .binOp l _ r => litCounts l + litCounts r
  | _ => (0, 0)
termination_by structural e => e

def litCountsEL : MExprList → Nat × Nat
  | .nil => (0, 0)
  | .cons e rest => litCounts e + litCountsEL rest
termination_by structural l => l

def litCountsPL : MPairList → Nat × Nat
  | .nil => (0, 0)
  | .cons k v rest => litCounts k + litCounts v + litCountsPL rest
termination_by structural l => l

end

def litCountsExprs : List MExpr → Nat × Nat
  | [] => (0, 0)
  | e :: rest => litCounts e + litCountsExprs rest

mutual

def litCountsS : EnhStmt → Nat × Nat
  | .importS _ => (0, 0)
  | .importFromS _ _ => (0, 0)
  | .node exprs children => litCountsExprs exprs + litCountsB children
termination_by structural s => s

def litCountsB : EnhBlock → Nat × Nat
  | .nil => (0, 0)
  | .cons s rest => litCountsS s + litCountsB rest
termination_by structural b => b

end

mutual

theorem collectExpr_counts (e : MExpr) :
    ImportCountSpec (collectExpr e) (litCounts e) := by
  cases e with
  | nameE s => exact ⟨rfl, rfl, rfl, rfl⟩
  | constE c => exact ⟨rfl, rfl, rfl, rfl⟩
  | otherE t => exact ⟨rfl, rfl, rfl, rfl⟩
  | listE elts =>
      exact ImportCountSpec.append spec_listPair (collectExprList_counts elts)
  | dictE pairs =>
      exact ImportCountSpec.append spec_dictPair (collectPairList_counts pairs)
  | callE f args =>
      exact ImportCountSpec.append (collectExpr_counts f) (collectExprList_counts args)
  | binOp l op r =>
      exact ImportCountSpec.append (collectExpr_counts l) (collectExpr_counts r)
termination_by structural e

theorem collectExprList_counts (l : MExprList) :
    ImportCountSpec (collectExprList l) (litCountsEL l) := by
  cases l with
  | nil => exact ⟨rfl, rfl, rfl, rfl⟩
  | cons e rest =>
      exact ImportCountSpec.append (collectExpr_counts e) (collectExprList_counts rest)
termination_by structural l

theorem collectPairList_counts (l : MPairList) :
    ImportCountSpec (collectPairList l) (litCountsPL l) := by
  cases l with
  | nil => exact ⟨rfl, rfl, rfl, rfl⟩
  | cons k v rest =>
      exact ImportCountSpec.append
        (ImportCountSpec.append (collectExpr_counts k) (collectExpr_counts v))
        (collectPairList_counts rest)
termination_by structural l

end

theorem collectExprs_counts (l : List MExpr) :
    ImportCountSpec (collectExprs l) (litCountsExprs l) := by
  induction l with
  | nil => exact ⟨rfl, rfl, rfl, rfl⟩
  | cons e rest ih => exact ImportCountSpec.append (collectExpr_counts e) ih

mutual

theorem collectStmt_counts (s : EnhStmt) :
    ImportCountSpec (collectStmt s) (litCountsS s) := by
  cases s with
  | importS names => exact ⟨rfl, rfl, rfl, rfl⟩
  | importFromS mod names => exact ⟨rfl, rfl, rfl, rfl⟩
  | node exprs children =>
      exact ImportCountSpec.append (collectExprs_counts exprs)
        (collectBlock_counts children)
termination_by structural s

theorem collectBlock_counts (b : EnhBlock) :
    ImportCountSpec (collectBlock b) (litCountsB b) := by
  cases b with
  | nil => exact ⟨rfl, rfl, rfl, rfl⟩
  | cons s rest =>
      exact ImportCountSpec.append (collectStmt_counts s) (collectBlock_counts rest)
termination_by structural b

end

theorem enhAddLine_imports (st : EnhState) (l : String) :
    (enhAddLine st l).imports = st.imports := by
  unfold enhAddLine; split <;> rfl

theorem visitImportNames_imports (names : List String) (st : EnhState) :
    (visitImportNames names st).imports = st.imports := by
  induction names generalizing st with
  | nil => rfl
  | cons n rest ih =>
      simp only [visitImportNames]
      split <;> rw [ih, enhAddLine_imports]

theorem visitFromNames_imports (m : String) (names : List String) (st : EnhState) :
    ∃ extra, (visitFromNames m names st).imports = st.imports ++ extra := by
  induction names generalizing st with
  | nil => exact ⟨[], by simp [visitFromNames]⟩
  | cons n rest ih =>
      simp only [visitFromNames]
      split
      · obtain ⟨extra, hx⟩ := ih { st with imports := st.imports ++ [impListLine] }
        refine ⟨impListLine :: extra, ?_⟩
        rw [hx]
        simp
      · split
        · obtain ⟨extra, hx⟩ := ih { st with imports := st.imports ++ [impMapLine] }
          refine ⟨impMapLine :: extra, ?_⟩
          rw [hx]
          simp
        · obtain ⟨extra, hx⟩ :=
            ih (enhAddLine st ("// from " ++ m ++ " import " ++ n ++ " (需要手动转换)"))
          refine ⟨extra, ?_⟩
          rw [hx, enhAddLine_imports]

mutual

theorem enhVisitStmt_imports (s : EnhStmt) (st : EnhState) :
    ∃ extra, (enhVisitStmt s st).imports = st.imports ++ extra := by
  cases s with
  | importS names =>
      exact ⟨[], by simp [enhVisitStmt, visitImportNames_imports]⟩
  | importFromS mod names =>
      cases mod with
      | none => exact ⟨[], by simp [enhVisitStmt]⟩
      | some m => simpa [enhVisitStmt] using visitFromNames_imports m names st
  | node exprs children =>
      simpa [enhVisitStmt] using enhVisitBlock_imports children st
termination_by structural s

theorem enhVisitBlock_imports (b : EnhBlock) (st : EnhState) :
    ∃ extra, (enhVisitBlock b st).imports = st.imports ++ extra := by
  cases b with
  | nil => exact ⟨[], by simp [enhVisitBlock]⟩
  | cons s rest =>
      obtain ⟨e1, h1⟩ := enhVisitStmt_imports s st
      obtain ⟨e2, h2⟩ := enhVisitBlock_imports rest (enhVisitStmt s st)
      exact ⟨e1 ++ e2, by simp [enhVisitBlock, h2, h1]⟩
termination_by structural b

end

-- A module with two list literals (`a = [1]` then `b = [2]`): the pre-scan
-- appends the List/ArrayList pair once per literal.
def c5Tree : EnhBlock :=
  enhBlock [ .node [.listE (mExprList [.constE (.intC 1)])] .nil,
             .node [.listE (mExprList [.constE (.intC 2)])] .nil ]

/-- C5 counterexample: on a module containing two list literals the
pre-scan's collected import lines contain the List import line twice (and
are not in sorted order: the List line precedes the ArrayList line), so
the emitted lines are neither deduplicated nor sorted. -/
theorem C5_pre_scan_imports_duplicated :
    collectBlock c5Tree =
      [impListLine, impArrayListLine, impListLine, impArrayListLine] ∧
    cnt impListLine (collectBlock c5Tree) = 2 := ⟨rfl, rfl⟩

/-- C5 as amended: the pre-scan appends the fixed List/ArrayList import
pair once per list literal and the Map/HashMap pair once per dict literal,
in traversal order, retaining duplicates and applying no sorting; the
render pass only ever appends further import lines after the pre-scan's,
so the collected lines are emitted (in that order) at the top of the
output. -/
theorem C5_import_lines_per_literal (t : EnhBlock) :
    (cnt impListLine (collectBlock t) = (litCountsB t).1 ∧
     cnt impArrayListLine (collectBlock t) = (litCountsB t).1 ∧
     cnt impMapLine (collectBlock t) = (litCountsB t).2 ∧
     cnt impHashMapLine (collectBlock t) = (litCountsB t).2) ∧
    ∃ extra,
      (enhVisitBlock t
        { imports := collectBlock t, lines := [], indent_level := 0 }).imports =
      collectBlock t ++ extra :=
  ⟨collectBlock_counts t, enhVisitBlock_imports t _⟩


/-! ### The conversion cache (src/optimizer.py, claim C8) -/

/-- `CacheEntry` (src/optimizer.py lines 18-25).  Timestamps are modelled
as integers; only their ordering matters to eviction. -/
structure CacheEntry where
  code_hash : String
  converted_code : String
  timestamp : Int
  access_count : Int
  last_accessed : Int
deriving DecidableEq

/-- `ConversionCache` (src/optimizer.py lines 38-46): a Python dict is an
insertion-ordered association list with distinct keys. -/
structure ConversionCache where
  max_size : Nat
  entries : List (String × CacheEntry)
deriving DecidableEq

/-- The eviction key `(e.last_accessed, -e.access_count)`
(src/optimizer.py line 88). -/
def tkey (e : CacheEntry) : Int × Int := (e.last_accessed, -e.access_count)

/-- Python's lexicographic `<` on the 2-tuples compared by `min`. -/
def keyLt (a b : Int × Int) : Prop := a.1 < b.1 ∨ (a.1 = b.1 ∧ a.2 < b.2)

/-- Lexicographic `≤` on the eviction keys. -/
def keyLe (a b : Int × Int) : Prop := a.1 < b.1 ∨ (a.1 = b.1 ∧ a.2 ≤ b.2)

instance (a b : Int × Int) : Decidable (keyLt a b) :=
  inferInstanceAs (Decidable (a.1 < b.1 ∨ (a.1 = b.1 ∧ a.2 < b.2)))

instance (a b : Int × Int) : Decidable (keyLe a b) :=
  inferInstanceAs (Decidable (a.1 < b.1 ∨ (a.1 = b.1 ∧ a.2 ≤ b.2)))

theorem keyLe_refl (a : Int × Int) : keyLe a a := Or.inr ⟨rfl, le_refl _⟩

theorem keyLt_le {a b : Int × Int} (h : keyLt a b) : keyLe a b := by
  unfold keyLt at h; unfold keyLe; omega

theorem not_keyLt_le {a b : Int × Int} (h : ¬ keyLt a b) : keyLe b a := by
  unfold keyLt at h; unfold keyLe; omega

theorem keyLe_trans {a b c : Int × Int} (h1 : keyLe a b) (h2 : keyLe b c) :
    keyLe a c := by
  unfold keyLe at *; omega

/-- The fold performed by Python's `min(values, key=...)`: the running best
is replaced only when a strictly smaller key appears, so the FIRST minimal
element in iteration order wins ties. -/
def minEntryAux (best : CacheEntry) : List CacheEntry → CacheEntry
  | [] => best
  | e :: rest => minEntryAux (if keyLt (tkey e) (tkey best) then e else best) rest

/-- Python `cache.get(key)` / `key in cache` on the entries list. -/
def lookupEntry : List (String × CacheEntry) → String → Option CacheEntry
  | [], _ => none
  | (k, e) :: rest, h => if k = h then some e else lookupEntry rest h

/-- Python `del cache[key]`: removes the (unique) pair with that key,
preserving the order of the rest.  (On a missing key the source raises
`KeyError`; that case is outside every claim proved here and this model
leaves the list unchanged.) -/
def eraseKey : List (String × CacheEntry) → String → List (String × CacheEntry)
  | [], _ => []
  | (k, e) :: rest, h => if k = h then rest else (k, e) :: eraseKey rest h

/-- Python `cache[key] = entry`: update in place if the key exists,
append at the end otherwise. -/
def insertEntry : List (String × CacheEntry) → String → CacheEntry →
    List (String × CacheEntry)
  | [], k, e => [(k, e)]
  | (k', e') :: rest, k, e =>
      if k' = k then (k, e) :: rest else (k', e') :: insertEntry rest k e

/-- `ConversionCache._evict_oldest` (src/optimizer.py lines 80-91). -/
def evictOldest (c : ConversionCache) : ConversionCache :=
  match c.entries with
  | [] => c
  | (_, e0) :: rest =>
      let oldest := minEntryAux e0 (rest.map Prod.snd)
      { c with entries := eraseKey c.entries oldest.code_hash }

/-- `ConversionCache.put` (src/optimizer.py lines 64-78).  The content
hash (`hashlib.md5`) and the clock (`time.time()`) are external effects,
passed in as `hash` and `now`; a fresh entry has `access_count = 0` and
`last_accessed = 0`. -/
def put (c : ConversionCache) (hash : String → String) (now : Int)
    (code converted : String) : ConversionCache :=
  let h := hash code
  let c1 :=
    if c.entries.length ≥ c.max_size ∧ lookupEntry c.entries h = none
    then evictOldest c else c
  { c1 with
    entries := insertEntry c1.entries h
      { code_hash := h, converted_code := converted, timestamp := now,
        access_count := 0, last_accessed := 0 } }

theorem minEntryAux_mem (l : List CacheEntry) (best : CacheEntry) :
    minEntryAux best l = best ∨ minEntryAux best l ∈ l := by
  induction l generalizing best with
  | nil => exact Or.inl rfl
  | cons e rest ih =>
      simp only [minEntryAux]
      by_cases hlt : keyLt (tkey e) (tkey best)
      · rw [if_pos hlt]
        rcases ih e with h | h
        · rw [h]; exact Or.inr (List.mem_cons_self _ _)
        · exact Or.inr (List.mem_cons_of_mem _ h)
      · rw [if_neg hlt]
        rcases ih best with h | h
        · rw [h]; exact Or.inl rfl
        · exact Or.inr (List.mem_cons_of_mem _ h)

theorem minEntryAux_le (l : List CacheEntry) (best : CacheEntry) :
    keyLe (tkey (minEntryAux best l)) (tkey best) ∧
    ∀ x ∈ l, keyLe (tkey (minEntryAux best l)) (tkey x) := by
  induction l generalizing best with
  | nil => exact ⟨keyLe_refl _, by simp⟩
  | cons e rest ih =>
      simp only [minEntryAux]
      by_cases hlt : keyLt (tkey e) (tkey best)
      · rw [if_pos hlt]
        obtain ⟨h1, h2⟩ := ih e
        refine ⟨keyLe_trans h1 (keyLt_le hlt), ?_⟩
        intro x hx
        rcases List.mem_cons.mp hx with rfl | hx
        · exact h1
        · exact h2 x hx
      · rw [if_neg hlt]
        obtain ⟨h1, h2⟩ := ih best
        refine ⟨h1, ?_⟩
        intro x hx
        rcases List.mem_cons.mp hx with rfl | hx
        · exact keyLe_trans h1 (not_keyLt_le hlt)
        · exact h2 x hx

theorem eraseKey_split (l : List (String × CacheEntry)) (k : String) (m : CacheEntry)
    (hnodup : (l.map Prod.fst).Nodup) (hmem : (k, m) ∈ l) :
    ∃ pre post, l = pre ++ (k, m) :: post ∧ eraseKey l k = pre ++ post := by
  induction l with
  | nil => simp at hmem
  | cons p rest ih =>
      obtain ⟨k', e'⟩ := p
      simp only [List.map_cons, List.nodup_cons] at hnodup
      rcases List.mem_cons.mp hmem with heq | hmem'
      · injection heq.symm with hk he
        subst hk; subst he
        refine ⟨[], rest, by simp, ?_⟩
        simp [eraseKey]
      · have hk : k' ≠ k := by
          intro hkk
          subst hkk
          exact hnodup.1 (List.mem_map_of_mem Prod.fst hmem')
        obtain ⟨pre, post, h1, h2⟩ := ih hnodup.2 hmem'
        refine ⟨(k', e') :: pre, post, by simp [h1], ?_⟩
        simp [eraseKey, hk, h2]

theorem insertEntry_append (l : List (String × CacheEntry)) (k : String)
    (e : CacheEntry) (h : lookupEntry l k = none) :
    insertEntry l k e = l ++ [(k, e)] := by
  induction l with
  | nil => rfl
  | cons p rest ih =>
      obtain ⟨k', e'⟩ := p
      simp only [lookupEntry] at h
      by_cases hk : k' = k
      · rw [if_pos hk] at h; exact absurd h (by simp)
      · rw [if_neg hk] at h
        simp [insertEntry, hk, ih h]

theorem lookupEntry_none_iff (l : List (String × CacheEntry)) (k : String) :
    lookupEntry l k = none ↔ k ∉ l.map Prod.fst := by
  induction l with
  | nil => simp [lookupEntry]
  | cons p rest ih =>
      obtain ⟨k', e'⟩ := p
      by_cases hk : k' = k
      · subst hk
        simp [lookupEntry]
      · simp only [lookupEntry, List.map_cons, List.mem_cons, if_neg hk, ih]
        constructor
        · rintro h (h1 | h2)
          · exact hk h1.symm
          · exact h h2
        · exact fun h hmem => h (Or.inr hmem)

/-- C8: a `put` on a full cache (at least `max_size` entries, fresh key,
with the dict invariants: distinct keys, each entry's `code_hash` field
equal to its key) removes exactly one entry — one whose eviction key
`(last_accessed, -access_count)` is smallest (lexicographically `≤` every
entry's key; Python's `min` keeps the first minimal entry on ties) — and
appends the new entry at the end, leaving every other entry in place. -/
theorem C8_put_on_full_cache_evicts_minimal (c : ConversionCache)
    (hash : String → String) (now : Int) (code converted : String)
    (hks : ∀ p ∈ c.entries, p.2.code_hash = p.1)
    (hnodup : (c.entries.map Prod.fst).Nodup)
    (hfull : c.entries.length ≥ c.max_size)
    (hpos : 0 < c.max_size)
    (hnew : lookupEntry c.entries (hash code) = none) :
    ∃ pre post k m,
      c.entries = pre ++ (k, m) :: post ∧
      (∀ p ∈ c.entries, keyLe (tkey m) (tkey p.2)) ∧
      (put c hash now code converted).entries =
        (pre ++ post) ++
          [(hash code,
            { code_hash := hash code, converted_code := converted,
              timestamp := now, access_count := 0, last_accessed := 0 })] := by
  -- the cache is non-empty
  rcases hE : c.entries with _ | ⟨⟨k0, e0⟩, rest⟩
  · rw [hE] at hfull; simp at hfull; omega
  -- the minimal entry and its membership among the values
  set m := minEntryAux e0 (rest.map Prod.snd) with hm
  have hmemv : m ∈ (((k0, e0) :: rest).map Prod.snd) := by
    rcases minEntryAux_mem (rest.map Prod.snd) e0 with h | h
    · rw [← hm] at h; rw [h]; simp
    · rw [← hm] at h; simp only [List.map_cons]; exact List.mem_cons_of_mem _ h
  -- its pair in the entries list, keyed by its own hash field
  obtain ⟨p, hp, hp2⟩ := List.mem_map.mp (by rw [← hE] at hmemv; exact hmemv)
  have hkey : p = (m.code_hash, m) := by
    have := hks p hp
    rw [hp2] at this
    obtain ⟨p1, p2⟩ := p
    simp only at hp2 this
    rw [hp2, this]
  rw [hkey] at hp
  -- minimality over every entry
  have hmin : ∀ q ∈ c.entries, keyLe (tkey m) (tkey q.2) := by
    intro q hq
    rw [hE] at hq
    obtain ⟨hle0, hlerest⟩ := minEntryAux_le (rest.map Prod.snd) e0
    rcases List.mem_cons.mp hq with rfl | hq'
    · exact hle0
    · exact hlerest q.2 (List.mem_map_of_mem Prod.snd hq')
  -- the erase splits the list around the evicted pair
  obtain ⟨pre, post, hsplit, herase⟩ :=
    eraseKey_split c.entries m.code_hash m hnodup hp
  have hsplit' := hsplit
  have hmin' := hmin
  rw [hE] at hsplit' hmin'
  refine ⟨pre, post, m.code_hash, m, hsplit', hmin', ?_⟩
  -- unfold put on the true branch
  have hcond : c.entries.length ≥ c.max_size ∧
      lookupEntry c.entries (hash code) = none := ⟨hfull, hnew⟩
  have hev : (evictOldest c).entries = pre ++ post := by
    unfold evictOldest
    rw [hE]
    simpa [← hE, ← hm] using herase
  have hfresh : lookupEntry (pre ++ post) (hash code) = none := by
    rw [lookupEntry_none_iff]
    rw [lookupEntry_none_iff] at hnew
    intro hmem
    apply hnew
    rw [hsplit]
    simp only [List.map_append, List.map_cons, List.mem_append, List.mem_cons] at hmem ⊢
    tauto
  simp only [put, if_pos hcond]
  rw [hev, insertEntry_append _ _ _ hfresh]

-- A concrete full cache for the C8 witness: two entries, capacity 2, the
-- second entry has the older `last_accessed` and is therefore the minimum.
def c8e1 : CacheEntry :=
  { code_hash := "h1", converted_code := "o1", timestamp := 0,
    access_count := 0, last_accessed := 5 }

def c8e2 : CacheEntry :=
  { code_hash := "h2", converted_code := "o2", timestamp := 0,
    access_count := 0, last_accessed := 3 }

def c8Cache : ConversionCache :=
  { max_size := 2, entries := [("h1", c8e1), ("h2", c8e2)] }

/-- Witness for C8: putting a fresh key into the full `c8Cache`. -/
theorem C8_put_on_full_cache_evicts_minimal_witness :
    ∃ pre post k m,
      c8Cache.entries = pre ++ (k, m) :: post ∧
      (∀ p ∈ c8Cache.entries, keyLe (tkey m) (tkey p.2)) ∧
      (put c8Cache (fun _ => "h3") 9 "c" "oc").entries =
        (pre ++ post) ++
          [("h3",
            { code_hash := "h3", converted_code := "oc", timestamp := 9,
              access_count := 0, last_accessed := 0 })] :=
  C8_put_on_full_cache_evicts_minimal c8Cache (fun _ => "h3") 9 "c" "oc"
    (by decide) (by decide) (by decide) (by decide) (by decide)
